import Mathlib

/-!
Verification development for the negative-electricity-prices repository.

Part 1 embeds the dashboard front end (src/web/src/main.ts and the chart
modules): which aggregate JSON files the initialization fetches, how each
init function treats fetch failures, and the two pure data transformations
(per-year monthly datasets and the feature-importance sort).

Part 2 models the watermark-driven incremental-ingestion core from the
specification; the repository ships only this pipeline's consumers, so the
pipeline itself is modelled from the spec's component contracts (§3, §4,
§7, §8 of spec.md).
-/

namespace Dashboard

/-! ### Data URLs fetched by the chart modules

Each chart module performs exactly one `fetch` of one `/data/` URL; these
constants are the literal URL strings from the source files. -/

/-- URL fetched by `initNegativePriceCharts` (charts/negativeprices). -/
def negativePricesUrl : String := "/data/negative_prices.json"

/-- URL fetched by `initCorrelationCharts` (charts/correlation.ts). -/
def correlationUrl : String := "/data/correlation.json"

/-- URL fetched by `initEnergyMixCharts` (charts/energymix). -/
def energyMixUrl : String := "/data/energy_mix.json"

/-- URL fetched by `initDemandCharts` (charts/demand.ts). -/
def demandUrl : String := "/data/demand.json"

/-- URL fetched by `initWeatherCharts` (charts/weather.ts). -/
def weatherUrl : String := "/data/weather.json"

/-- URL fetched by `initJulyComparisonCharts` (charts/julycomparison). -/
def julyComparisonUrl : String := "/data/july_comparison.json"

/-- URL fetched by `initSeptemberComparisonCharts` (charts/septembercomparison.ts). -/
def septemberComparisonUrl : String := "/data/september_comparison.json"

/-- URL fetched by `initModelCharts` (charts/model). -/
def modelResultsUrl : String := "/data/model_results.json"

/-- The data files fetched by the `DOMContentLoaded` handler in
src/web/src/main.ts, in the order of the `Promise.all` array: one URL per
init function, and these init functions are the only code in the
repository that calls `fetch`. -/
def dashboardInitFetches : List String :=
  [negativePricesUrl, energyMixUrl, weatherUrl, demandUrl,
   julyComparisonUrl, septemberComparisonUrl, modelResultsUrl, correlationUrl]

/-- The eight aggregate JSON file names of the external-interface contract
(spec.md §6). -/
def contractDataFiles : List String :=
  ["negative_prices.json", "correlation.json", "energy_mix.json", "demand.json",
   "weather.json", "july_comparison.json", "september_comparison.json",
   "model_results.json"]

/-! ### Fetch outcome model for the init functions

A `fetch` in the browser either rejects (network error) or yields a
response with an `ok` flag; `response.json()` then either throws (body is
not JSON of the expected shape) or produces the parsed data. An async
function either rejects or resolves with a value. -/

/-- Outcome of `response.json()`: the body fails to parse, or parses to data. -/
inductive BodyOutcome (α : Type) where
  | parse_fail : BodyOutcome α
  | parsed (d : α) : BodyOutcome α
deriving DecidableEq

/-- Outcome of `fetch(url)`: the fetch itself throws, or a response arrives
with an `ok` flag and a body. -/
inductive FetchOutcome (α : Type) where
  | throws : FetchOutcome α
  | response (ok : Bool) (body : BodyOutcome α) : FetchOutcome α
deriving DecidableEq

/-- Result of an async init function: a rejected promise, or resolution. -/
inductive JsResult (α : Type) where
  | rejected : JsResult α
  | resolved (v : α) : JsResult α
deriving DecidableEq

/-- `initEnergyMixCharts`: body wrapped in try/catch; `!response.ok`
returns null before parsing; a thrown fetch or parse error is caught and
null is returned. -/
def initEnergyMixChartsM {α : Type} : FetchOutcome α → JsResult (Option α)
  | .throws => .resolved none
  | .response false _ => .resolved none
  | .response true .parse_fail => .resolved none
  | .response true (.parsed d) => .resolved (some d)

/-- `initWeatherCharts`: same try/catch plus `!response.ok` guard shape. -/
def initWeatherChartsM {α : Type} : FetchOutcome α → JsResult (Option α)
  | .throws => .resolved none
  | .response false _ => .resolved none
  | .response true .parse_fail => .resolved none
  | .response true (.parsed d) => .resolved (some d)

/-- `initDemandCharts`: same try/catch plus `!response.ok` guard shape. -/
def initDemandChartsM {α : Type} : FetchOutcome α → JsResult (Option α)
  | .throws => .resolved none
  | .response false _ => .resolved none
  | .response true .parse_fail => .resolved none
  | .response true (.parsed d) => .resolved (some d)

/-- `initJulyComparisonCharts`: same try/catch plus `!response.ok` guard shape. -/
def initJulyComparisonChartsM {α : Type} : FetchOutcome α → JsResult (Option α)
  | .throws => .resolved none
  | .response false _ => .resolved none
  | .response true .parse_fail => .resolved none
  | .response true (.parsed d) => .resolved (some d)

/-- `initSeptemberComparisonCharts`: same try/catch plus `!response.ok` guard shape. -/
def initSeptemberComparisonChartsM {α : Type} : FetchOutcome α → JsResult (Option α)
  | .throws => .resolved none
  | .response false _ => .resolved none
  | .response true .parse_fail => .resolved none
  | .response true (.parsed d) => .resolved (some d)

/-- `initModelCharts`: same try/catch plus `!response.ok` guard shape. -/
def initModelChartsM {α : Type} : FetchOutcome α → JsResult (Option α)
  | .throws => .resolved none
  | .response false _ => .resolved none
  | .response true .parse_fail => .resolved none
  | .response true (.parsed d) => .resolved (some d)

/-- `initNegativePriceCharts`: no try/catch and no `response.ok` check; a
thrown fetch or a failing `response.json()` rejects the promise, and any
response whose body parses is processed regardless of its `ok` flag. -/
def initNegativePriceChartsM {α : Type} : FetchOutcome α → JsResult α
  | .throws => .rejected
  | .response _ .parse_fail => .rejected
  | .response _ (.parsed d) => .resolved d

/-- `initCorrelationCharts`: no try/catch and no `response.ok` check,
exactly like `initNegativePriceCharts`. -/
def initCorrelationChartsM {α : Type} : FetchOutcome α → JsResult α
  | .throws => .rejected
  | .response _ .parse_fail => .rejected
  | .response _ (.parsed d) => .resolved d

/-- A fetch outcome counted as a failure by the spec sentence under test:
the fetch throws, the response is not ok, or the body fails to parse. -/
def fetchFailed {α : Type} : FetchOutcome α → Prop
  | .throws => True
  | .response ok body => ok = false ∨ body = BodyOutcome.parse_fail

instance {α : Type} [DecidableEq α] (o : FetchOutcome α) : Decidable (fetchFailed o) := by
  cases o with
  | throws => exact isTrue trivial
  | response ok body => exact inferInstanceAs (Decidable (ok = false ∨ body = BodyOutcome.parse_fail))

/-! ### createMonthlyComparisonChart (charts/negativeprices)

The source builds, for each year in `data.years`, a 12-slot array: for
month 1..12 it takes the `count` of the first entry of the year-filtered
data with that month, or null. -/

/-- One entry of `monthly_comparison.data`: `{ year, month, count }`. -/
structure MonthEntry where
  year : Int
  month : Int
  count : Int
deriving DecidableEq

/-- The `monthly_comparison` payload: `{ years, data }`. -/
structure MonthlyComparisonData where
  years : List Int
  data : List MonthEntry
deriving DecidableEq

/-- The per-year 12-slot values built by `createMonthlyComparisonChart`:
`yearData = data.data.filter(d => d.year === year)`, then for month 1..12
push `entry ? entry.count : null` where `entry = yearData.find(d => d.month === month)`. -/
def monthlyValuesFor (d : MonthlyComparisonData) (y : Int) : List (Option Int) :=
  (List.range 12).map (fun (i : Nat) =>
    ((d.data.filter (fun e => decide (e.year = y))).find?
      (fun e => decide (e.month = (i : Int) + 1))).map (fun e => e.count))

/-- The datasets array of `createMonthlyComparisonChart`:
`data.years.map(year => { label: year, data: monthlyValues })`. -/
def monthlyDatasets (d : MonthlyComparisonData) : List (Int × List (Option Int)) :=
  d.years.map (fun y => (y, monthlyValuesFor d y))

/-- Witness data for the C9 instance. -/
def c9SampleData : MonthlyComparisonData :=
  { years := [2024, 2025],
    data := [⟨2024, 7, 71⟩, ⟨2025, 6, 60⟩, ⟨2025, 7, 33⟩, ⟨2025, 7, 99⟩] }

/-! ### createFeatureImportanceChart (charts/model)

The source sorts a spread copy of the input by descending importance
(`[...data].sort((a, b) => b.importance - a.importance)`) and renders the
sorted features; the caller's array is not mutated. -/

/-- One entry of `model_results.feature_importance`. -/
structure FeatureImportance where
  feature : String
  importance : Rat
deriving DecidableEq

/-- The comparator `(a, b) => b.importance - a.importance` as an order
relation: `a` sorts no later than `b` when `b.importance ≤ a.importance`. -/
def impGE (a b : FeatureImportance) : Prop :=
  b.importance ≤ a.importance

instance : DecidableRel impGE :=
  fun a b => inferInstanceAs (Decidable (b.importance ≤ a.importance))

instance : IsTotal FeatureImportance impGE :=
  ⟨fun a b => le_total b.importance a.importance⟩

instance : IsTrans FeatureImportance impGE :=
  ⟨fun _ _ _ h1 h2 => le_trans h2 h1⟩

/-- The spread `[...data]`: a fresh array with the same elements, so that
the subsequent in-place sort does not touch the caller's array. -/
def arrayCopy (xs : List FeatureImportance) : List FeatureImportance := xs

/-- `createFeatureImportanceChart`: returns the rendered chart content
(labels = sorted feature names, values = sorted importances × 100) paired
with the caller's array as it stands after the call; the sort is applied
to the spread copy, so the caller's array is returned as given. -/
def createFeatureImportanceChart (data : List FeatureImportance) :
    (List String × List Rat) × List FeatureImportance :=
  let sorted := List.insertionSort impGE (arrayCopy data)
  ((sorted.map (fun d => d.feature), sorted.map (fun d => d.importance * 100)), data)

end Dashboard

namespace Pipeline

/-! ### Watermark-driven incremental-ingestion core

Modelled from the spec: the repository ships only the pipeline's consumers
(the dashboard and the §6 JSON contract); the ingestion core itself —
SeriesKey, Watermark Store, Series Fetcher, Ingestion Coordinator, Raw
Store — is absent from the source tree and is modelled here from spec.md
§3, §4, §5, §7 and §8. Instants are modelled as natural numbers at the
series' granularity (the spec's gap example counts in hours), and a fetch
window `(lo, hi]` is from-exclusive as in the spec's FetchWindow
(`from: instant (exclusive, = watermark)`). -/

/-- Modelled from the spec: the `domain` enum of SeriesKey (§3). -/
inductive Domain where
  | day_ahead_price : Domain
  | generation : Domain
deriving DecidableEq

/-- Modelled from the spec: SeriesKey `{ domain, region }` (§3). -/
structure SeriesKey where
  domain : Domain
  region : String
deriving DecidableEq

/-- Modelled from the spec: Watermark `{ last_complete_timestamp, updated_at }`
for one series (§3); the series component is the store's key. -/
structure Watermark where
  last_complete_timestamp : Nat
  updated_at : Nat
deriving DecidableEq

/-- Modelled from the spec: Observation `{ series, timestamp, value }` (§3). -/
structure Observation where
  series : SeriesKey
  timestamp : Nat
  value : Int
deriving DecidableEq

/-- Modelled from the spec: the audit trail of Raw Store writes (§4.4): an
initial write of a key, or a correction that overwrote an existing value,
recorded distinguishably. -/
inductive WriteEvent where
  | initial (series : SeriesKey) (timestamp : Nat) (value : Int) : WriteEvent
  | correction (series : SeriesKey) (timestamp : Nat) (old_value new_value : Int) : WriteEvent
deriving DecidableEq

/-- Modelled from the spec: the Raw Store (§4.4): observations keyed by
`(series, timestamp)` plus the audit log of writes. -/
structure RawStore where
  entries : List (SeriesKey × Nat × Int)
  audit_log : List WriteEvent
deriving DecidableEq

/-- Raw Store point lookup by `(series, timestamp)` key. -/
def RawStore.lookup (st : RawStore) (s : SeriesKey) (t : Nat) : Option Int :=
  (st.entries.find? (fun e => decide (e.1 = s ∧ e.2.1 = t))).map (fun e => e.2.2)

/-- Modelled from the spec: merging one observation into the Raw Store
(§4.4): absent key → insert and log an initial write; identical payload →
no-op; differing payload → overwrite and log a correction. Returns the
count of rows written (0 or 1). -/
def RawStore.mergeOne (st : RawStore) (o : Observation) : RawStore × Nat :=
  match st.lookup o.series o.timestamp with
  | none =>
    ({ entries := st.entries ++ [(o.series, o.timestamp, o.value)],
       audit_log := st.audit_log ++ [.initial o.series o.timestamp o.value] }, 1)
  | some v =>
    if v = o.value then (st, 0)
    else
      ({ entries := st.entries.map (fun e =>
           if e.1 = o.series ∧ e.2.1 = o.timestamp then (o.series, o.timestamp, o.value) else e),
         audit_log := st.audit_log ++ [.correction o.series o.timestamp v o.value] }, 1)

/-- Modelled from the spec: `merge(series, observations) -> count_written`
(§4.4), folded over a batch. -/
def RawStore.merge : RawStore → List Observation → RawStore × Nat
  | st, [] => (st, 0)
  | st, o :: rest =>
    let p := RawStore.mergeOne st o
    let q := RawStore.merge p.1 rest
    (q.1, p.2 + q.2)

/-- Modelled from the spec: the Watermark Store (§4.1), one row per series. -/
structure WatermarkStore where
  rows : List (SeriesKey × Watermark)
deriving DecidableEq

/-- Modelled from the spec: `get(series) -> Watermark | absent` (§4.1). -/
def WatermarkStore.get (st : WatermarkStore) (s : SeriesKey) : Option Watermark :=
  (st.rows.find? (fun r => decide (r.1 = s))).map (fun r => r.2)

/-- Modelled from the spec: `RegressionError` (§4.1, §7), the fatal guard
against the watermark going backwards. -/
inductive RegressionError where
  | regression : RegressionError
deriving DecidableEq

/-- Modelled from the spec: `advance(series, new_timestamp)` (§4.1): fails
with `RegressionError` when `new_timestamp < current.last_complete_timestamp`;
otherwise durably writes the new watermark (creating the row on first
ingestion), stamping `updated_at` with the supplied clock value. -/
def WatermarkStore.advance (st : WatermarkStore) (s : SeriesKey) (new_timestamp now : Nat) :
    Except RegressionError WatermarkStore :=
  match st.get s with
  | some w =>
    if new_timestamp < w.last_complete_timestamp then .error .regression
    else .ok { rows := st.rows.map (fun r =>
      if r.1 = s then (s, ⟨new_timestamp, now⟩) else r) }
  | none => .ok { rows := st.rows ++ [(s, ⟨new_timestamp, now⟩)] }

/-- Modelled from the spec: the durable state the coordinator operates on:
the Raw Store and the Watermark Store (§2). -/
structure PipelineState where
  raw : RawStore
  wm : WatermarkStore
deriving DecidableEq

/-- Modelled from the spec: the fetch-level error taxonomy (§7):
`AuthError` aborts, `RateLimitError` and `UpstreamError` fail the run. -/
inductive FetchError where
  | auth : FetchError
  | rate_limit : FetchError
  | upstream_error : FetchError
deriving DecidableEq

/-- The window start derived from a stored watermark: the watermark value,
or 0 (before the first instant) when the series has never been ingested. -/
def wmFrom : Option Watermark → Nat
  | some w => w.last_complete_timestamp
  | none => 0

/-- The watermark value the state holds for a series (0 when absent). -/
def wmVal (s : PipelineState) (k : SeriesKey) : Nat :=
  wmFrom (s.wm.get k)

/-- Modelled from the spec: per-batch validation (§4.3): keep observations
of the requested series whose timestamp lies in the window `(lo, hi]` and
whose value passes the domain's range rule `cfg`; then drop duplicate
timestamps keeping the first occurrence. The dedup pass, with the
timestamps already seen. -/
def dedupKeepFirst (seen : List Nat) : List Observation → List Observation
  | [] => []
  | o :: rest =>
    if o.timestamp ∈ seen then dedupKeepFirst seen rest
    else o :: dedupKeepFirst (o.timestamp :: seen) rest

/-- Modelled from the spec: the full validation of one fetched batch (§4.3). -/
def validateBatch (cfg : Domain → Int → Bool) (series : SeriesKey) (lo hi : Nat)
    (obs : List Observation) : List Observation :=
  dedupKeepFirst []
    (obs.filter (fun o =>
      decide (o.series = series) && decide (lo < o.timestamp) &&
      decide (o.timestamp ≤ hi) && cfg o.series.domain o.value))

/-- Modelled from the spec: the walk computing the gap-safe watermark
candidate (§4.3): starting at `t` with `fuel` instants left in the window,
step forward while the next instant is persisted. -/
def contiguousGo (st : RawStore) (s : SeriesKey) : Nat → Nat → Nat
  | 0, t => t
  | Nat.succ fuel, t =>
    if (st.lookup s (t + 1)).isSome then contiguousGo st s fuel (t + 1) else t

/-- Modelled from the spec: the highest timestamp in `(lo, hi]` such that
every timestamp in `(lo, ·]` is confirmed persisted (§4.3 gap safety);
`lo` itself when even `lo + 1` is missing. -/
def contiguousHigh (st : RawStore) (s : SeriesKey) (lo hi : Nat) : Nat :=
  contiguousGo st s (hi - lo) lo

/-- Modelled from the spec: terminal status of one coordinator run (§4.3):
DONE, FAILED (retryable), ABORTED (fatal), or halted on RegressionError. -/
inductive RunStatus where
  | done : RunStatus
  | failed : RunStatus
  | aborted : RunStatus
  | halted : RunStatus
deriving DecidableEq

/-- Outcome report of one run: terminal status and rows written. -/
structure RunReport where
  status : RunStatus
  written : Nat
deriving DecidableEq

/-- Modelled from the spec: the coordinator's persist phase (§4.2, §4.3):
pages of the fetched sequence are validated and merged one by one; a page
error stops the phase and is reported. Returns the state after the merged
pages, the rows written, and the first error if any. -/
def persistPages (cfg : Domain → Int → Bool) (series : SeriesKey) (lo hi : Nat) :
    PipelineState → Nat → List (Except FetchError (List Observation)) →
    PipelineState × Nat × Option FetchError
  | s, w, [] => (s, w, none)
  | _s, w, .error e :: _ => (_s, w, some e)
  | s, w, .ok obs :: rest =>
    let valid := validateBatch cfg series lo hi obs
    let p := RawStore.merge s.raw valid
    persistPages cfg series lo hi { s with raw := p.1 } (w + p.2) rest

/-- Modelled from the spec: the coordinator's ADVANCING_WATERMARK step
(§4.3, §7): call the store's `advance`; a RegressionError halts the run,
leaving the state as it was. -/
def applyAdvance (s : PipelineState) (series : SeriesKey) (t now written : Nat) :
    PipelineState × RunReport :=
  match s.wm.advance series t now with
  | .error _ => (s, ⟨.halted, written⟩)
  | .ok wm2 => ({ s with wm := wm2 }, ⟨.done, written⟩)

/-- Modelled from the spec: finishing a run whose pages all persisted
(§4.3): compute the gap-safe watermark candidate; skip the write when
there is no progress (idempotent replay, §8), otherwise advance. -/
def finishRun (s : PipelineState) (series : SeriesKey) (lo hi now written : Nat) :
    PipelineState × RunReport :=
  let t := contiguousHigh s.raw series lo hi
  if t ≤ lo then (s, ⟨.done, written⟩)
  else applyAdvance s series t now written

/-- Modelled from the spec: one coordinator run for one series (§4.3):
read the watermark, fetch the delta window, validate and persist page by
page, then advance the watermark. AuthError aborts, restoring the
pre-run state exactly; other fetch errors fail the run, keeping persisted
pages but not advancing the watermark. -/
def runOne (cfg : Domain → Int → Bool)
    (fetch : Nat → Nat → List (Except FetchError (List Observation)))
    (series : SeriesKey) (hi now : Nat) (s : PipelineState) :
    PipelineState × RunReport :=
  let lo := wmFrom (s.wm.get series)
  let pages := fetch lo hi
  match persistPages cfg series lo hi s 0 pages with
  | (_, _, some .auth) => (s, ⟨.aborted, 0⟩)
  | (s2, w, some .rate_limit) => (s2, ⟨.failed, w⟩)
  | (s2, w, some .upstream_error) => (s2, ⟨.failed, w⟩)
  | (s2, w, none) => finishRun s2 series lo hi now w

/-- One scheduled run: the series, its fetch behaviour (pages returned for
a requested window), the window horizon and the clock. -/
structure RunInput where
  series : SeriesKey
  fetch : Nat → Nat → List (Except FetchError (List Observation))
  hi : Nat
  now : Nat

/-- A sequence of runs applied in order (§5: per-series runs are totally
ordered; this folds any interleaving of series). -/
def applyRuns (cfg : Domain → Int → Bool) : List RunInput → PipelineState → PipelineState
  | [], s => s
  | i :: rest, s => applyRuns cfg rest (runOne cfg i.fetch i.series i.hi i.now s).1

/-- The timestamps of a fetch window `(lo, hi]`, in order. -/
def windowList (lo hi : Nat) : List Nat :=
  (List.range (hi - lo)).map (fun i => lo + 1 + i)

/-- The observations an unchanged upstream holds in a window: `upstream`
gives the value at each instant of the series. -/
def pureObs (series : SeriesKey) (upstream : Nat → Option Int) (lo hi : Nat) :
    List Observation :=
  (windowList lo hi).filterMap (fun t => (upstream t).map (fun v => ⟨series, t, v⟩))

/-- Modelled from the spec: an honest fetcher over unchanged upstream data
(§4.2, §8): fetching a window returns one page with exactly the upstream
observations in that window. -/
def pureFetch (series : SeriesKey) (upstream : Nat → Option Int) (lo hi : Nat) :
    List (Except FetchError (List Observation)) :=
  [Except.ok (pureObs series upstream lo hi)]

/-- Modelled from the spec: the domain range-rule configuration table
(§4.3, §9): negative prices are valid, negative generation is not. -/
def defaultRangeRule : Domain → Int → Bool
  | .day_ahead_price, _ => true
  | .generation, v => decide (0 ≤ v)

/-- Sample series used in concrete scenario checks. -/
def sampleSeries : SeriesKey := ⟨Domain.day_ahead_price, "NL"⟩

/-- The empty pipeline state: no observations, no watermarks. -/
def emptyState : PipelineState := ⟨⟨[], []⟩, ⟨[]⟩⟩

/-- Upstream data of the spec's gap-safety scenario: observations at
instants 1, 2 and 4 of the window (0, 5], instant 3 missing. -/
def gapUpstream : Nat → Option Int
  | 1 => some 10
  | 2 => some (-5)
  | 4 => some 7
  | _ => none

/-- A fetch behaviour whose second page fails with `AuthError` after a
first successful page, for the mid-run abort scenario. -/
def abortFetch : Nat → Nat → List (Except FetchError (List Observation)) :=
  fun _lo _hi => [Except.ok [⟨sampleSeries, 1, 3⟩], Except.error FetchError.auth]

end Pipeline

namespace Dashboard

/-- On a filtered list, `find?` locates the first element of the original
list satisfying both the filter and the search predicate. -/
theorem filter_find?_eq {α : Type} (p q : α → Bool) (l : List α) :
    (l.filter p).find? q = l.find? (fun x => p x && q x) := by
  induction l with
  | nil => rfl
  | cons x xs ih =>
    by_cases hp : p x = true
    · by_cases hq : q x = true
      · simp [List.filter_cons, hp, List.find?_cons, hq]
      · simp only [Bool.not_eq_true] at hq
        simp [List.filter_cons, hp, List.find?_cons, hq, ih]
    · simp only [Bool.not_eq_true] at hp
      simp [List.filter_cons, hp, List.find?_cons, ih]

/-- C2: the dashboard initialization fetches exactly the eight aggregate
JSON files of the external-interface contract, each from the `/data/`
path, and no other data files: the URLs fetched by the `DOMContentLoaded`
handler are a permutation of the contract names prefixed by `/data/`,
eight in number and pairwise distinct. -/
theorem c2_dashboard_fetches_contract :
    dashboardInitFetches.Perm (contractDataFiles.map (fun n => "/data/" ++ n)) ∧
    dashboardInitFetches.length = 8 ∧ dashboardInitFetches.Nodup := by
  refine ⟨?_, by decide, by decide⟩
  decide

/-- C8 counterexample: `initNegativePriceCharts` (and likewise
`initCorrelationCharts`) does not reject when the response is not ok but
its body parses: at the concrete outcome `response (ok := false, body
parses to 0)` both resolve with the parsed data instead of rejecting,
contradicting the claim that they propagate any such failure. -/
theorem c8_counterexample :
    initNegativePriceChartsM (FetchOutcome.response false (BodyOutcome.parsed (0 : Nat))) =
      JsResult.resolved 0 ∧
    initCorrelationChartsM (FetchOutcome.response false (BodyOutcome.parsed (0 : Nat))) ≠
      JsResult.rejected := by
  refine ⟨rfl, ?_⟩
  decide

/-- C8 (amended): for every fetch outcome, each of the six guarded init
functions (energy mix, weather, demand, July comparison, September
comparison, model) resolves to null rather than rejecting when the fetch
throws, the response is not ok, or the body fails to parse; by contrast,
`initNegativePriceCharts` and `initCorrelationCharts` reject when the
fetch throws or the body fails to parse, but they do not check
`response.ok`: a response whose body parses resolves normally with the
parsed data regardless of the ok flag. -/
theorem c8_error_handling_amended {α : Type} (o : FetchOutcome α) :
    (fetchFailed o →
      initEnergyMixChartsM o = JsResult.resolved none ∧
      initWeatherChartsM o = JsResult.resolved none ∧
      initDemandChartsM o = JsResult.resolved none ∧
      initJulyComparisonChartsM o = JsResult.resolved none ∧
      initSeptemberComparisonChartsM o = JsResult.resolved none ∧
      initModelChartsM o = JsResult.resolved none) ∧
    ((o = FetchOutcome.throws ∨ ∃ ok, o = FetchOutcome.response ok BodyOutcome.parse_fail) →
      initNegativePriceChartsM o = JsResult.rejected ∧
      initCorrelationChartsM o = JsResult.rejected) ∧
    (∀ (ok : Bool) (d : α), o = FetchOutcome.response ok (BodyOutcome.parsed d) →
      initNegativePriceChartsM o = JsResult.resolved d ∧
      initCorrelationChartsM o = JsResult.resolved d) := by
  refine ⟨?_, ?_, ?_⟩
  · intro hf
    cases o with
    | throws => exact ⟨rfl, rfl, rfl, rfl, rfl, rfl⟩
    | response ok body =>
      cases ok with
      | false =>
        cases body with
        | parse_fail => exact ⟨rfl, rfl, rfl, rfl, rfl, rfl⟩
        | parsed d => exact ⟨rfl, rfl, rfl, rfl, rfl, rfl⟩
      | true =>
        cases body with
        | parse_fail => exact ⟨rfl, rfl, rfl, rfl, rfl, rfl⟩
        | parsed d =>
          rcases hf with h | h
          · exact absurd h (by simp)
          · exact absurd h (by simp)
  · rintro (rfl | ⟨ok, rfl⟩)
    · exact ⟨rfl, rfl⟩
    · exact ⟨rfl, rfl⟩
  · rintro ok d rfl
    exact ⟨rfl, rfl⟩

/-- Witness for the amended C8 at the concrete outcomes `throws` and a
non-parsing response, over payload type `Nat`. -/
theorem c8_error_handling_amended_witness :
    fetchFailed (FetchOutcome.throws : FetchOutcome Nat) ∧
    initEnergyMixChartsM (FetchOutcome.throws : FetchOutcome Nat) = JsResult.resolved none ∧
    initNegativePriceChartsM (FetchOutcome.response true BodyOutcome.parse_fail :
      FetchOutcome Nat) = JsResult.rejected := by
  refine ⟨trivial, ?_, ?_⟩
  · exact ((c8_error_handling_amended (FetchOutcome.throws : FetchOutcome Nat)).1 trivial).1
  · exact ((c8_error_handling_amended
      (FetchOutcome.response true BodyOutcome.parse_fail : FetchOutcome Nat)).2.1
      (Or.inr ⟨true, rfl⟩)).1

/-- C9: for every year `y` of `monthly_comparison.years` and every month
`m` in 1..12, the dataset `createMonthlyComparisonChart` builds for `y`
is among the chart's datasets, has exactly 12 elements, and holds at
index `m-1` the count of the first entry of `monthly_comparison.data`
with year `y` and month `m`, or null when no such entry exists. -/
theorem c9_monthly_datasets (d : MonthlyComparisonData) (y : Int) (hy : y ∈ d.years)
    (m : Nat) (h1 : 1 ≤ m) (h2 : m ≤ 12) :
    (y, monthlyValuesFor d y) ∈ monthlyDatasets d ∧
    (monthlyValuesFor d y).length = 12 ∧
    (monthlyValuesFor d y)[m - 1]? =
      some ((d.data.find? (fun e => decide (e.year = y ∧ e.month = (m : Int)))).map
        (fun e => e.count)) := by
  refine ⟨List.mem_map_of_mem _ hy,
    by simp only [monthlyValuesFor, List.length_map, List.length_range], ?_⟩
  have hm : m - 1 < 12 := by omega
  have hcast : ((m - 1 : Nat) : Int) + 1 = (m : Int) := by omega
  have hdec : (fun e : MonthEntry => decide (e.year = y ∧ e.month = (m : Int))) =
      (fun e : MonthEntry => decide (e.year = y) && decide (e.month = (m : Int))) := by
    funext e
    by_cases h1 : e.year = y <;> by_cases h2 : e.month = (m : Int) <;> simp [h1, h2]
  simp only [monthlyValuesFor]
  rw [List.getElem?_map, List.getElem?_range hm, hdec, ← filter_find?_eq, Option.map_some', hcast]

/-- Witness for C9 at year 2025, month 7 of the sample payload: the slot
holds the first matching entry's count, 33. -/
theorem c9_monthly_datasets_witness :
    (2025 : Int) ∈ c9SampleData.years ∧ 1 ≤ 7 ∧ 7 ≤ 12 ∧
    ((2025, monthlyValuesFor c9SampleData 2025) ∈ monthlyDatasets c9SampleData ∧
      (monthlyValuesFor c9SampleData 2025).length = 12 ∧
      (monthlyValuesFor c9SampleData 2025)[7 - 1]? =
        some ((c9SampleData.data.find? (fun e =>
          decide (e.year = 2025 ∧ e.month = ((7 : Nat) : Int)))).map (fun e => e.count))) ∧
    (monthlyValuesFor c9SampleData 2025)[6]? = some (some 33) := by
  refine ⟨by decide, by decide, by decide, ?_, by decide⟩
  exact c9_monthly_datasets c9SampleData 2025 (by decide) 7 (by decide) (by decide)

/-- C10: for every input list of feature-importance entries, the rendered
label sequence of `createFeatureImportanceChart` follows the copy sorted
by non-increasing importance (each element's importance is at least the
next's), the sorted copy is a permutation of the input, and the caller's
array after the call is exactly the input (the sort operates on the
spread copy). -/
theorem c10_feature_importance_sorted (data : List FeatureImportance) :
    (createFeatureImportanceChart data).1.1 =
      (List.insertionSort impGE (arrayCopy data)).map (fun d => d.feature) ∧
    List.Sorted impGE (List.insertionSort impGE (arrayCopy data)) ∧
    (List.insertionSort impGE (arrayCopy data)).Perm data ∧
    (createFeatureImportanceChart data).2 = data := by
  exact ⟨rfl, List.sorted_insertionSort impGE (arrayCopy data),
    List.perm_insertionSort impGE (arrayCopy data), rfl⟩

end Dashboard


namespace Pipeline

/-! ### Raw Store lemmas -/

/-- `find?` on an updated entry list: rewriting every entry carrying the
merge key to the new triple rewrites what `find?` sees at that key and at
no other key. -/
theorem find?_update_entries (l : List (SeriesKey × Nat × Int)) (ks : SeriesKey) (kt : Nat)
    (v : Int) (s : SeriesKey) (t : Nat) :
    (l.map (fun e => if e.1 = ks ∧ e.2.1 = kt then (ks, kt, v) else e)).find?
      (fun e => decide (e.1 = s ∧ e.2.1 = t)) =
    if s = ks ∧ t = kt then
      (l.find? (fun e => decide (e.1 = ks ∧ e.2.1 = kt))).map (fun _ => (ks, kt, v))
    else l.find? (fun e => decide (e.1 = s ∧ e.2.1 = t)) := by
  induction l with
  | nil => by_cases hk : s = ks ∧ t = kt <;> simp [hk]
  | cons e l ih =>
    simp only [List.map_cons]
    by_cases he : e.1 = ks ∧ e.2.1 = kt
    · rw [if_pos he]
      by_cases hk : s = ks ∧ t = kt
      · obtain ⟨rfl, rfl⟩ := hk
        rw [if_pos ⟨rfl, rfl⟩]
        rw [List.find?_cons_of_pos _ (by simp), List.find?_cons_of_pos _
          (by simp only [decide_eq_true_eq]; exact he)]
        simp
      · rw [if_neg hk]
        have h1 : ¬((ks, kt, v).1 = s ∧ (ks, kt, v).2.1 = t) := by
          rintro ⟨a, b⟩
          exact hk ⟨a.symm, b.symm⟩
        rw [List.find?_cons_of_neg _ (by simp only [decide_eq_true_eq]; exact h1)]
        have h2 : ¬(e.1 = s ∧ e.2.1 = t) := by
          rintro ⟨a, b⟩
          exact hk ⟨a.symm.trans he.1, b.symm.trans he.2⟩
        rw [List.find?_cons_of_neg _ (by simp only [decide_eq_true_eq]; exact h2)]
        rw [if_neg hk] at ih
        exact ih
    · rw [if_neg he]
      by_cases hk : s = ks ∧ t = kt
      · obtain ⟨rfl, rfl⟩ := hk
        rw [if_pos ⟨rfl, rfl⟩]
        rw [List.find?_cons_of_neg _ (by simp only [decide_eq_true_eq]; exact he),
          List.find?_cons_of_neg _ (by simp only [decide_eq_true_eq]; exact he)]
        rw [if_pos ⟨rfl, rfl⟩] at ih
        exact ih
      · rw [if_neg hk]
        by_cases hp : e.1 = s ∧ e.2.1 = t
        · rw [List.find?_cons_of_pos _ (by simp only [decide_eq_true_eq]; exact hp),
            List.find?_cons_of_pos _ (by simp only [decide_eq_true_eq]; exact hp)]
        · rw [List.find?_cons_of_neg _ (by simp only [decide_eq_true_eq]; exact hp),
            List.find?_cons_of_neg _ (by simp only [decide_eq_true_eq]; exact hp)]
          rw [if_neg hk] at ih
          exact ih

/-- Point lookup after merging one observation: the merged key now holds
the observation's value and every other key is untouched. -/
theorem lookup_mergeOne (st : RawStore) (o : Observation) (s : SeriesKey) (t : Nat) :
    ((st.mergeOne o).1).lookup s t =
      if s = o.series ∧ t = o.timestamp then some o.value else st.lookup s t := by
  rcases h : st.lookup o.series o.timestamp with _ | v
  · have hf : st.entries.find? (fun e => decide (e.1 = o.series ∧ e.2.1 = o.timestamp)) = none := by
      rw [RawStore.lookup] at h
      exact Option.map_eq_none'.mp h
    simp only [RawStore.mergeOne, h]
    rw [RawStore.lookup]
    simp only [List.find?_append]
    by_cases hk : s = o.series ∧ t = o.timestamp
    · obtain ⟨rfl, rfl⟩ := hk
      rw [if_pos ⟨rfl, rfl⟩, hf, Option.none_or]
      rw [List.find?_cons_of_pos _ (by simp)]
      rfl
    · rw [if_neg hk]
      have h2 : ¬((o.series, o.timestamp, o.value).1 = s ∧
          (o.series, o.timestamp, o.value).2.1 = t) := by
        rintro ⟨a, b⟩
        exact hk ⟨a.symm, b.symm⟩
      rw [List.find?_cons_of_neg _ (by simp only [decide_eq_true_eq]; exact h2)]
      rw [List.find?_nil, Option.or_none]
      rfl
  · by_cases hv : v = o.value
    · subst hv
      simp only [RawStore.mergeOne, h, if_true]
      by_cases hk : s = o.series ∧ t = o.timestamp
      · rw [if_pos hk]
        obtain ⟨rfl, rfl⟩ := hk
        exact h
      · rw [if_neg hk]
    · simp only [RawStore.mergeOne, h]
      rw [if_neg hv, RawStore.lookup]
      simp only [find?_update_entries]
      by_cases hk : s = o.series ∧ t = o.timestamp
      · rw [if_pos hk, if_pos hk]
        rcases hf2 : st.entries.find? (fun e =>
            decide (e.1 = o.series ∧ e.2.1 = o.timestamp)) with _ | e0
        · rw [RawStore.lookup, hf2] at h
          simp at h
        · rw [hf2]
          rfl
      · rw [if_neg hk, if_neg hk]
        rfl

end Pipeline

namespace Pipeline

/-- Merging an observation whose value is already stored is a no-op. -/
theorem mergeOne_noop (st : RawStore) (o : Observation)
    (h : st.lookup o.series o.timestamp = some o.value) :
    st.mergeOne o = (st, 0) := by
  simp only [RawStore.mergeOne, h, if_true]

/-- Merging a batch every observation of which is already stored with the
same value leaves the Raw Store untouched and writes zero rows. -/
theorem merge_noop (st : RawStore) (L : List Observation)
    (h : ∀ o ∈ L, st.lookup o.series o.timestamp = some o.value) :
    RawStore.merge st L = (st, 0) := by
  induction L with
  | nil => rfl
  | cons o rest ih =>
    have h0 := h o (List.mem_cons_self o rest)
    simp only [RawStore.merge, mergeOne_noop st o h0]
    rw [ih (fun o2 ho2 => h o2 (List.mem_cons_of_mem _ ho2))]
    rfl

/-- A stored value agreed upon by the whole batch survives a merge. -/
theorem lookup_merge_preserved : ∀ (L : List Observation) (st : RawStore) (s : SeriesKey)
    (t : Nat) (v : Int), st.lookup s t = some v →
    (∀ o ∈ L, o.series = s → o.timestamp = t → o.value = v) →
    ((RawStore.merge st L).1).lookup s t = some v
  | [], _, _, _, _, hst, _ => hst
  | o :: rest, st, s, t, v, hst, h => by
    simp only [RawStore.merge]
    apply lookup_merge_preserved rest
    · rw [lookup_mergeOne]
      by_cases hk : s = o.series ∧ t = o.timestamp
      · rw [if_pos hk, h o (List.mem_cons_self o rest) hk.1.symm hk.2.symm]
      · rw [if_neg hk]
        exact hst
    · exact fun o2 ho2 => h o2 (List.mem_cons_of_mem _ ho2)

/-- After merging a batch whose occurrences of a key all agree in value,
that key holds that value. -/
theorem lookup_merge_mem : ∀ (L : List Observation) (st : RawStore) (o : Observation),
    o ∈ L →
    (∀ o2 ∈ L, o2.series = o.series → o2.timestamp = o.timestamp → o2.value = o.value) →
    ((RawStore.merge st L).1).lookup o.series o.timestamp = some o.value
  | [], _, o, ho, _ => absurd ho (List.not_mem_nil o)
  | x :: rest, st, o, ho, agree => by
    simp only [RawStore.merge]
    rcases List.mem_cons.mp ho with rfl | ho2
    · apply lookup_merge_preserved rest
      · rw [lookup_mergeOne, if_pos ⟨rfl, rfl⟩]
      · exact fun o2 ho3 h1 h2 => agree o2 (List.mem_cons_of_mem _ ho3) h1 h2
    · exact lookup_merge_mem rest ((st.mergeOne x).1) o ho2
        (fun o2 ho3 => agree o2 (List.mem_cons_of_mem _ ho3))

/-- Claim C7: Raw Store merge by (series, timestamp) key: re-ingesting an
identical payload is a no-op, while re-ingesting the same key with a
differing payload overwrites the stored value, writes one row, and logs a
correction event that is distinguishable from any initial-write event. -/
theorem c7_merge_semantics (st : RawStore) (s : SeriesKey) (t : Nat) (v w : Int) :
    (st.lookup s t = some v → st.mergeOne ⟨s, t, v⟩ = (st, 0)) ∧
    (st.lookup s t = some w → w ≠ v →
      ((st.mergeOne ⟨s, t, v⟩).1).lookup s t = some v ∧
      ((st.mergeOne ⟨s, t, v⟩).1).audit_log = st.audit_log ++ [WriteEvent.correction s t w v] ∧
      (st.mergeOne ⟨s, t, v⟩).2 = 1 ∧
      ∀ (s0 : SeriesKey) (t0 : Nat) (v0 : Int),
        WriteEvent.correction s t w v ≠ WriteEvent.initial s0 t0 v0) := by
  constructor
  · intro h
    exact mergeOne_noop st ⟨s, t, v⟩ h
  · intro h hw
    refine ⟨?_, ?_, ?_, ?_⟩
    · rw [lookup_mergeOne, if_pos ⟨rfl, rfl⟩]
    · simp only [RawStore.mergeOne, h, if_neg hw]
    · simp only [RawStore.mergeOne, h, if_neg hw]
    · intro s0 t0 v0 hne
      exact WriteEvent.noConfusion hne

/-- Witness for C7: on a store holding value 3 at (sampleSeries, 1),
re-merging 3 is a no-op, and merging 9 overwrites, logging a correction. -/
theorem c7_merge_semantics_witness :
    (RawStore.lookup ⟨[(sampleSeries, 1, 3)], [WriteEvent.initial sampleSeries 1 3]⟩
        sampleSeries 1 = some 3) ∧
    RawStore.mergeOne ⟨[(sampleSeries, 1, 3)], [WriteEvent.initial sampleSeries 1 3]⟩
      ⟨sampleSeries, 1, (3 : Int)⟩ =
      (⟨[(sampleSeries, 1, 3)], [WriteEvent.initial sampleSeries 1 3]⟩, 0) ∧
    (3 : Int) ≠ 9 ∧
    ((RawStore.mergeOne ⟨[(sampleSeries, 1, 3)], [WriteEvent.initial sampleSeries 1 3]⟩
        ⟨sampleSeries, 1, (9 : Int)⟩).1).lookup sampleSeries 1 = some 9 ∧
    ((RawStore.mergeOne ⟨[(sampleSeries, 1, 3)], [WriteEvent.initial sampleSeries 1 3]⟩
        ⟨sampleSeries, 1, (9 : Int)⟩).1).audit_log =
      [WriteEvent.initial sampleSeries 1 3] ++ [WriteEvent.correction sampleSeries 1 3 9] := by
  have h3 : RawStore.lookup ⟨[(sampleSeries, 1, 3)], [WriteEvent.initial sampleSeries 1 3]⟩
      sampleSeries 1 = some 3 := by decide
  refine ⟨h3, ?_, by decide, ?_, ?_⟩
  · exact (c7_merge_semantics ⟨[(sampleSeries, 1, 3)],
      [WriteEvent.initial sampleSeries 1 3]⟩ sampleSeries 1 3 3).1 h3
  · exact ((c7_merge_semantics ⟨[(sampleSeries, 1, 3)],
      [WriteEvent.initial sampleSeries 1 3]⟩ sampleSeries 1 9 3).2 h3 (by decide)).1
  · exact ((c7_merge_semantics ⟨[(sampleSeries, 1, 3)],
      [WriteEvent.initial sampleSeries 1 3]⟩ sampleSeries 1 9 3).2 h3 (by decide)).2.1


/-! ### Watermark Store lemmas -/

/-- `find?` on an updated watermark row list: rewriting the rows keyed by
the advanced series rewrites what `find?` sees for that series only. -/
theorem find?_update_rows (rows : List (SeriesKey × Watermark)) (s : SeriesKey)
    (w2 : Watermark) (k : SeriesKey) :
    (rows.map (fun r => if r.1 = s then (s, w2) else r)).find? (fun r => decide (r.1 = k)) =
    if k = s then (rows.find? (fun r => decide (r.1 = s))).map (fun _ => (s, w2))
    else rows.find? (fun r => decide (r.1 = k)) := by
  induction rows with
  | nil => by_cases hk : k = s <;> simp [hk]
  | cons r rows ih =>
    simp only [List.map_cons]
    by_cases hr : r.1 = s
    · rw [if_pos hr]
      by_cases hk : k = s
      · subst hk
        rw [if_pos rfl]
        rw [List.find?_cons_of_pos _ (by simp), List.find?_cons_of_pos _
          (by simp only [decide_eq_true_eq]; exact hr)]
        rfl
      · rw [if_neg hk]
        rw [List.find?_cons_of_neg _
          (by simp only [decide_eq_true_eq]; exact fun a => hk a.symm)]
        rw [List.find?_cons_of_neg _
          (by simp only [decide_eq_true_eq]; exact fun a => hk (a.symm.trans hr))]
        rw [if_neg hk] at ih
        exact ih
    · rw [if_neg hr]
      by_cases hk : k = s
      · subst hk
        rw [if_pos rfl]
        rw [List.find?_cons_of_neg _ (by simp only [decide_eq_true_eq]; exact hr),
          List.find?_cons_of_neg _ (by simp only [decide_eq_true_eq]; exact hr)]
        rw [if_pos rfl] at ih
        exact ih
      · rw [if_neg hk]
        by_cases hp : r.1 = k
        · rw [List.find?_cons_of_pos _ (by simp only [decide_eq_true_eq]; exact hp),
            List.find?_cons_of_pos _ (by simp only [decide_eq_true_eq]; exact hp)]
        · rw [List.find?_cons_of_neg _ (by simp only [decide_eq_true_eq]; exact hp),
            List.find?_cons_of_neg _ (by simp only [decide_eq_true_eq]; exact hp)]
          rw [if_neg hk] at ih
          exact ih

/-- A successful `advance` writes exactly the advanced series' watermark
and leaves every other series' row untouched. -/
theorem get_advance (st : WatermarkStore) (s : SeriesKey) (t now : Nat)
    (st2 : WatermarkStore) (h : st.advance s t now = Except.ok st2) (k : SeriesKey) :
    st2.get k = if k = s then some ⟨t, now⟩ else st.get k := by
  rcases hg : st.get s with _ | w
  · simp only [WatermarkStore.advance, hg] at h
    cases h
    rw [WatermarkStore.get]
    simp only [List.find?_append]
    by_cases hk : k = s
    · subst hk
      have hf : st.rows.find? (fun r => decide (r.1 = k)) = none := by
        rw [WatermarkStore.get] at hg
        exact Option.map_eq_none'.mp hg
      rw [hf, Option.none_or, if_pos rfl]
      rw [List.find?_cons_of_pos _ (by simp)]
      rfl
    · rw [if_neg hk]
      rw [List.find?_cons_of_neg _
        (by simp only [decide_eq_true_eq]; exact fun a => hk a.symm)]
      rw [List.find?_nil, Option.or_none]
      rfl
  · simp only [WatermarkStore.advance, hg] at h
    by_cases hlt : t < w.last_complete_timestamp
    · rw [if_pos hlt] at h
      cases h
    · rw [if_neg hlt] at h
      cases h
      rw [WatermarkStore.get]
      simp only [find?_update_rows]
      by_cases hk : k = s
      · rw [if_pos hk, if_pos hk]
        rcases hf2 : st.rows.find? (fun r => decide (r.1 = s)) with _ | r0
        · rw [WatermarkStore.get, hf2] at hg
          simp at hg
        · rw [hf2]
          rfl
      · rw [if_neg hk, if_neg hk]
        rfl

/-- `advance` fails with RegressionError exactly when a watermark exists
for the series and the new timestamp is strictly below it. -/
theorem advance_error_iff (st : WatermarkStore) (s : SeriesKey) (t now : Nat) :
    st.advance s t now = Except.error RegressionError.regression ↔
      ∃ w, st.get s = some w ∧ t < w.last_complete_timestamp := by
  rcases hg : st.get s with _ | w
  · simp only [WatermarkStore.advance, hg]
    constructor
    · intro h
      exact Except.noConfusion h
    · rintro ⟨w, hw, _⟩
      exact Option.noConfusion hw
  · simp only [WatermarkStore.advance, hg]
    by_cases hlt : t < w.last_complete_timestamp
    · rw [if_pos hlt]
      exact ⟨fun _ => ⟨w, rfl, hlt⟩, fun _ => rfl⟩
    · rw [if_neg hlt]
      constructor
      · intro h
        exact Except.noConfusion h
      · rintro ⟨w2, hw2, hlt2⟩
        cases Option.some.inj hw2
        exact absurd hlt2 hlt

/-! ### Coordinator lemmas -/

/-- The persist phase never touches the Watermark Store. -/
theorem persistPages_wm (cfg : Domain → Int → Bool) (series : SeriesKey) (lo hi : Nat) :
    ∀ (pages : List (Except FetchError (List Observation))) (s : PipelineState) (w : Nat),
    ((persistPages cfg series lo hi s w pages).1).wm = s.wm
  | [], _, _ => rfl
  | .error _ :: _, _, _ => rfl
  | .ok obs :: rest, s, w => by
    simp only [persistPages]
    exact persistPages_wm cfg series lo hi rest _ _

/-- The contiguous walk never moves backwards. -/
theorem contiguousGo_le (st : RawStore) (s : SeriesKey) :
    ∀ (fuel t : Nat), t ≤ contiguousGo st s fuel t
  | 0, t => Nat.le_refl t
  | fuel + 1, t => by
    rw [contiguousGo]
    by_cases h : (st.lookup s (t + 1)).isSome = true
    · rw [if_pos h]
      exact Nat.le_trans (Nat.le_succ t) (contiguousGo_le st s fuel (t + 1))
    · rw [if_neg h]

/-- The contiguous walk never leaves the window. -/
theorem contiguousGo_le_add (st : RawStore) (s : SeriesKey) :
    ∀ (fuel t : Nat), contiguousGo st s fuel t ≤ t + fuel
  | 0, t => Nat.le_refl t
  | fuel + 1, t => by
    rw [contiguousGo]
    by_cases h : (st.lookup s (t + 1)).isSome = true
    · rw [if_pos h]
      have := contiguousGo_le_add st s fuel (t + 1)
      omega
    · rw [if_neg h]
      omega

/-- Every instant strictly between the start and the walk's result is
persisted. -/
theorem contiguousGo_mem (st : RawStore) (s : SeriesKey) :
    ∀ (fuel t u : Nat), t < u → u ≤ contiguousGo st s fuel t →
    (st.lookup s u).isSome = true
  | 0, t, u, h1, h2 => absurd (Nat.lt_of_lt_of_le h1 h2) (Nat.lt_irrefl t)
  | fuel + 1, t, u, h1, h2 => by
    rw [contiguousGo] at h2
    by_cases h : (st.lookup s (t + 1)).isSome = true
    · rw [if_pos h] at h2
      rcases Nat.eq_or_lt_of_le (Nat.succ_le_of_lt h1) with heq | hlt
      · rw [← heq]
        exact h
      · exact contiguousGo_mem st s fuel (t + 1) u hlt h2
    · rw [if_neg h] at h2
      exact absurd (Nat.lt_of_lt_of_le h1 h2) (Nat.lt_irrefl t)

/-- When the walk stops strictly inside the window, the next instant is
missing from the store. -/
theorem contiguousGo_next (st : RawStore) (s : SeriesKey) :
    ∀ (fuel t : Nat), contiguousGo st s fuel t < t + fuel →
    st.lookup s (contiguousGo st s fuel t + 1) = none
  | 0, t, h => absurd h (by simp [contiguousGo])
  | fuel + 1, t, h => by
    rw [contiguousGo] at h ⊢
    by_cases hh : (st.lookup s (t + 1)).isSome = true
    · rw [if_pos hh] at h ⊢
      apply contiguousGo_next st s fuel (t + 1)
      omega
    · rw [if_neg hh] at h ⊢
      rcases hl : st.lookup s (t + 1) with _ | v
      · rfl
      · rw [hl] at hh
        simp at hh

/-- A walk started where the next instant is missing does not move. -/
theorem contiguousGo_stop (st : RawStore) (s : SeriesKey) (c : Nat)
    (h : st.lookup s (c + 1) = none) : ∀ fuel, contiguousGo st s fuel c = c
  | 0 => rfl
  | fuel + 1 => by
    rw [contiguousGo, h]
    simp

/-- Recomputing the gap-safe candidate from itself yields itself. -/
theorem contiguousHigh_idem (st : RawStore) (s : SeriesKey) (lo hi : Nat) :
    contiguousHigh st s (contiguousHigh st s lo hi) hi = contiguousHigh st s lo hi := by
  rcases le_or_lt hi (contiguousHigh st s lo hi) with hge | hlt
  · rw [contiguousHigh, Nat.sub_eq_zero_of_le hge]
    rfl
  · rcases le_or_lt lo hi with hlohi | hhilo
    · have h2 : contiguousGo st s (hi - lo) lo < lo + (hi - lo) := by
        have he : lo + (hi - lo) = hi := by omega
        rw [he]
        exact hlt
      have hnone : st.lookup s (contiguousGo st s (hi - lo) lo + 1) = none :=
        contiguousGo_next st s (hi - lo) lo h2
      rw [contiguousHigh]
      exact contiguousGo_stop st s _ hnone _
    · have h0 : hi - lo = 0 := by omega
      have hc : contiguousHigh st s lo hi = lo := by
        rw [contiguousHigh, h0]
        rfl
      exact absurd (hc ▸ hlt) (by omega)


/-- `contiguousHigh` never goes below the window start. -/
theorem contiguousHigh_le (st : RawStore) (s : SeriesKey) (lo hi : Nat) :
    lo ≤ contiguousHigh st s lo hi :=
  contiguousGo_le st s (hi - lo) lo

/-- Every instant strictly between the window start and the gap-safe
candidate is persisted. -/
theorem contiguousHigh_mem (st : RawStore) (s : SeriesKey) (lo hi u : Nat)
    (h1 : lo < u) (h2 : u ≤ contiguousHigh st s lo hi) :
    (st.lookup s u).isSome = true :=
  contiguousGo_mem st s (hi - lo) lo u h1 h2

/-- When the gap-safe candidate stops before the horizon, the next instant
is missing from the store. -/
theorem contiguousHigh_next (st : RawStore) (s : SeriesKey) (lo hi : Nat)
    (h1 : lo ≤ hi) (h2 : contiguousHigh st s lo hi < hi) :
    st.lookup s (contiguousHigh st s lo hi + 1) = none := by
  have h3 : contiguousGo st s (hi - lo) lo < lo + (hi - lo) := by
    have he : lo + (hi - lo) = hi := by omega
    rw [he]
    exact h2
  exact contiguousGo_next st s (hi - lo) lo h3

/-- A strictly advancing gap-safe candidate forces a nonempty window. -/
theorem contiguousHigh_lt_le (st : RawStore) (s : SeriesKey) (lo hi : Nat)
    (h : lo < contiguousHigh st s lo hi) : lo ≤ hi := by
  by_contra hcon
  push_neg at hcon
  have h0 : hi - lo = 0 := by omega
  have hc : contiguousHigh st s lo hi = lo := by
    rw [contiguousHigh, h0]
    rfl
  omega

/-- Exhaustive description of one coordinator run: it aborts restoring the
input state, fails keeping the watermark store, completes without progress,
or completes advancing the watermark to the gap-safe candidate. -/
theorem runOne_cases (cfg : Domain → Int → Bool)
    (fetch : Nat → Nat → List (Except FetchError (List Observation)))
    (series : SeriesKey) (hi now : Nat) (s : PipelineState) :
    runOne cfg fetch series hi now s = (s, ⟨RunStatus.aborted, 0⟩) ∨
    (∃ (s2 : PipelineState) (w : Nat), s2.wm = s.wm ∧
      runOne cfg fetch series hi now s = (s2, ⟨RunStatus.failed, w⟩)) ∨
    (∃ (s2 : PipelineState) (w : Nat), s2.wm = s.wm ∧
      contiguousHigh s2.raw series (wmVal s series) hi ≤ wmVal s series ∧
      runOne cfg fetch series hi now s = (s2, ⟨RunStatus.done, w⟩)) ∨
    (∃ (s2 : PipelineState) (w : Nat) (wm2 : WatermarkStore), s2.wm = s.wm ∧
      wmVal s series < contiguousHigh s2.raw series (wmVal s series) hi ∧
      s2.wm.advance series (contiguousHigh s2.raw series (wmVal s series) hi) now =
        Except.ok wm2 ∧
      runOne cfg fetch series hi now s =
        ({ s2 with wm := wm2 }, ⟨RunStatus.done, w⟩)) := by
  rcases hp : persistPages cfg series (wmFrom (s.wm.get series)) hi s 0
      (fetch (wmFrom (s.wm.get series)) hi) with ⟨s2, w, err⟩
  have hwm : s2.wm = s.wm := by
    have h0 := persistPages_wm cfg series (wmFrom (s.wm.get series)) hi
      (fetch (wmFrom (s.wm.get series)) hi) s 0
    rw [hp] at h0
    exact h0
  rcases err with _ | e
  · have hr : runOne cfg fetch series hi now s =
        finishRun s2 series (wmFrom (s.wm.get series)) hi now w := by
      simp only [runOne, hp]
    rw [finishRun] at hr
    by_cases hcl : contiguousHigh s2.raw series (wmFrom (s.wm.get series)) hi ≤
        wmFrom (s.wm.get series)
    · rw [if_pos hcl] at hr
      exact Or.inr (Or.inr (Or.inl ⟨s2, w, hwm, hcl, hr⟩))
    · rw [if_neg hcl] at hr
      rcases ha : s2.wm.advance series
          (contiguousHigh s2.raw series (wmFrom (s.wm.get series)) hi) now with e2 | wm2
      · cases e2
        rcases (advance_error_iff s2.wm series _ now).mp ha with ⟨w0, hw0, hlt0⟩
        have hlo : wmFrom (s.wm.get series) = w0.last_complete_timestamp := by
          rw [← hwm, hw0]
          rfl
        have hge : wmFrom (s.wm.get series) ≤
            contiguousHigh s2.raw series (wmFrom (s.wm.get series)) hi :=
          contiguousHigh_le s2.raw series _ hi
        omega
      · simp only [applyAdvance, ha] at hr
        exact Or.inr (Or.inr (Or.inr ⟨s2, w, wm2, hwm, not_le.mp hcl, ha, hr⟩))
  · cases e
    · exact Or.inl (by simp only [runOne, hp])
    · exact Or.inr (Or.inl ⟨s2, w, hwm, by simp only [runOne, hp]⟩)
    · exact Or.inr (Or.inl ⟨s2, w, hwm, by simp only [runOne, hp]⟩)


/-- A single run never lowers any series' watermark. -/
theorem wmVal_runOne_le (cfg : Domain → Int → Bool)
    (fetch : Nat → Nat → List (Except FetchError (List Observation)))
    (series : SeriesKey) (hi now : Nat) (s : PipelineState) (k : SeriesKey) :
    wmVal s k ≤ wmVal (runOne cfg fetch series hi now s).1 k := by
  rcases runOne_cases cfg fetch series hi now s with h | ⟨s2, w, hwm, h⟩ |
    ⟨s2, w, hwm, _, h⟩ | ⟨s2, w, wm2, hwm, hlt, ha, h⟩
  · rw [h]
  · rw [h]
    simp only [wmVal, hwm]
    exact Nat.le_refl _
  · rw [h]
    simp only [wmVal, hwm]
    exact Nat.le_refl _
  · rw [h]
    simp only [wmVal]
    rw [get_advance s2.wm series _ now wm2 ha k]
    by_cases hk : k = series
    · rw [if_pos hk]
      subst hk
      exact Nat.le_of_lt hlt
    · rw [if_neg hk, hwm]

/-- A sequence of runs never lowers any series' watermark. -/
theorem wmVal_applyRuns_le (cfg : Domain → Int → Bool) :
    ∀ (runs : List RunInput) (s : PipelineState) (k : SeriesKey),
    wmVal s k ≤ wmVal (applyRuns cfg runs s) k
  | [], _, _ => Nat.le_refl _
  | i :: rest, s, k =>
    Nat.le_trans (wmVal_runOne_le cfg i.fetch i.series i.hi i.now s k)
      (wmVal_applyRuns_le cfg rest _ k)

/-- Whenever a run advances a watermark past an instant, that instant is
persisted in the post-run Raw Store. -/
theorem runOne_advance_persisted (cfg : Domain → Int → Bool)
    (fetch : Nat → Nat → List (Except FetchError (List Observation)))
    (series : SeriesKey) (hi now : Nat) (s : PipelineState) (k : SeriesKey) (t : Nat)
    (h1 : wmVal s k < t) (h2 : t ≤ wmVal (runOne cfg fetch series hi now s).1 k) :
    (((runOne cfg fetch series hi now s).1).raw.lookup k t).isSome = true := by
  rcases runOne_cases cfg fetch series hi now s with h | ⟨s2, w, hwm, h⟩ |
    ⟨s2, w, hwm, _, h⟩ | ⟨s2, w, wm2, hwm, hlt, ha, h⟩
  · rw [h] at h2 ⊢
    have h3 : t ≤ wmVal s k := h2
    exact absurd h3 (by omega)
  · rw [h] at h2 ⊢
    have h3 : t ≤ wmVal s2 k := h2
    simp only [wmVal, hwm] at h3
    simp only [wmVal] at h1
    exact absurd h3 (by omega)
  · rw [h] at h2 ⊢
    have h3 : t ≤ wmVal s2 k := h2
    simp only [wmVal, hwm] at h3
    simp only [wmVal] at h1
    exact absurd h3 (by omega)
  · rw [h] at h2 ⊢
    have h3 : t ≤ wmVal ({ s2 with wm := wm2 } : PipelineState) k := h2
    by_cases hk : k = series
    · subst hk
      have hwv : wmVal ({ s2 with wm := wm2 } : PipelineState) k =
          contiguousHigh s2.raw k (wmVal s k) hi := by
        simp only [wmVal]
        rw [get_advance s2.wm k _ now wm2 ha k, if_pos rfl]
        rfl
      rw [hwv] at h3
      exact contiguousHigh_mem s2.raw k (wmVal s k) hi t h1 h3
    · have hwv : wmVal ({ s2 with wm := wm2 } : PipelineState) k = wmVal s k := by
        simp only [wmVal]
        rw [get_advance s2.wm series _ now wm2 ha k, if_neg hk, hwm]
      rw [hwv] at h3
      exact absurd h3 (by omega)

/-- Claim C1: for every sequence of ingestion runs for a series, including
runs that fail or are interleaved with failures, the watermark is
non-decreasing; and within any single run it advances only past instants
that are durably persisted in the post-run Raw Store. -/
theorem c1_monotonic_watermark :
    (∀ (cfg : Domain → Int → Bool) (runs : List RunInput) (s : PipelineState) (k : SeriesKey),
      wmVal s k ≤ wmVal (applyRuns cfg runs s) k) ∧
    (∀ (cfg : Domain → Int → Bool)
      (fetch : Nat → Nat → List (Except FetchError (List Observation)))
      (series : SeriesKey) (hi now : Nat) (s : PipelineState) (k : SeriesKey) (t : Nat),
      wmVal s k < t → t ≤ wmVal (runOne cfg fetch series hi now s).1 k →
      (((runOne cfg fetch series hi now s).1).raw.lookup k t).isSome = true) :=
  ⟨fun cfg runs s k => wmVal_applyRuns_le cfg runs s k,
    fun cfg fetch series hi now s k t h1 h2 =>
      runOne_advance_persisted cfg fetch series hi now s k t h1 h2⟩

/-- Witness for C1 on the concrete gap scenario: the watermark advances
from 0 to 2 monotonically and instant 2 is persisted. -/
theorem c1_monotonic_watermark_witness :
    wmVal emptyState sampleSeries < 2 ∧
    2 ≤ wmVal (runOne (fun _ _ => true) (pureFetch sampleSeries gapUpstream)
      sampleSeries 5 100 emptyState).1 sampleSeries ∧
    (((runOne (fun _ _ => true) (pureFetch sampleSeries gapUpstream)
      sampleSeries 5 100 emptyState).1).raw.lookup sampleSeries 2).isSome = true ∧
    wmVal emptyState sampleSeries ≤
      wmVal (applyRuns (fun _ _ => true)
        [⟨sampleSeries, pureFetch sampleSeries gapUpstream, 5, 100⟩] emptyState) sampleSeries := by
  refine ⟨by decide, by decide, ?_, ?_⟩
  · exact c1_monotonic_watermark.2 (fun _ _ => true) (pureFetch sampleSeries gapUpstream)
      sampleSeries 5 100 emptyState sampleSeries 2 (by decide) (by decide)
  · exact c1_monotonic_watermark.1 (fun _ _ => true)
      [⟨sampleSeries, pureFetch sampleSeries gapUpstream, 5, 100⟩] emptyState sampleSeries

/-- Claim C5: a run that reports ABORTED leaves the persistent state and
watermark exactly as before the run; a run that reports FAILED may keep
partial persisted data but does not advance any watermark. -/
theorem c5_abort_fail_safety (cfg : Domain → Int → Bool)
    (fetch : Nat → Nat → List (Except FetchError (List Observation)))
    (series : SeriesKey) (hi now : Nat) (s : PipelineState) :
    ((runOne cfg fetch series hi now s).2.status = RunStatus.aborted →
      (runOne cfg fetch series hi now s).1 = s) ∧
    ((runOne cfg fetch series hi now s).2.status = RunStatus.failed →
      ∀ k, wmVal (runOne cfg fetch series hi now s).1 k = wmVal s k) := by
  rcases runOne_cases cfg fetch series hi now s with h | ⟨s2, w, hwm, h⟩ |
    ⟨s2, w, hwm, _, h⟩ | ⟨s2, w, wm2, hwm, _, _, h⟩
  · rw [h]
    exact ⟨fun _ => rfl, fun hf =>
      absurd (show RunStatus.aborted = RunStatus.failed from hf) (by decide)⟩
  · rw [h]
    exact ⟨fun ha =>
      absurd (show RunStatus.failed = RunStatus.aborted from ha) (by decide),
      fun _ k => by simp only [wmVal, hwm]⟩
  · rw [h]
    exact ⟨fun ha =>
      absurd (show RunStatus.done = RunStatus.aborted from ha) (by decide),
      fun hf => absurd (show RunStatus.done = RunStatus.failed from hf) (by decide)⟩
  · rw [h]
    exact ⟨fun ha =>
      absurd (show RunStatus.done = RunStatus.aborted from ha) (by decide),
      fun hf => absurd (show RunStatus.done = RunStatus.failed from hf) (by decide)⟩

/-- Witness for C5: an upstream AuthError thrown on the second page of a
run, after a first page already persisted, reports ABORTED and leaves the
state exactly as before the run started. -/
theorem c5_abort_fail_safety_witness :
    (runOne (fun _ _ => true) abortFetch sampleSeries 5 100 emptyState).2.status =
      RunStatus.aborted ∧
    (runOne (fun _ _ => true) abortFetch sampleSeries 5 100 emptyState).1 = emptyState := by
  refine ⟨by decide, ?_⟩
  exact (c5_abort_fail_safety (fun _ _ => true) abortFetch sampleSeries 5 100 emptyState).1
    (by decide)

/-- Claim C6: the Watermark Store's `advance` fails with RegressionError
exactly when the new timestamp is strictly below the stored
`last_complete_timestamp`; on that failure the coordinator's advance step
halts the run, leaving the state untouched, instead of proceeding. -/
theorem c6_regression_guard :
    (∀ (st : WatermarkStore) (k : SeriesKey) (t now : Nat),
      st.advance k t now = Except.error RegressionError.regression ↔
        ∃ w, st.get k = some w ∧ t < w.last_complete_timestamp) ∧
    (∀ (s : PipelineState) (k : SeriesKey) (t now written : Nat),
      s.wm.advance k t now = Except.error RegressionError.regression →
      applyAdvance s k t now written = (s, ⟨RunStatus.halted, written⟩)) := by
  constructor
  · exact fun st k t now => advance_error_iff st k t now
  · intro s k t now written h
    simp only [applyAdvance, h]

/-- Witness for C6: advancing a watermark of 5 to 3 fails with
RegressionError and halts the coordinator step. -/
theorem c6_regression_guard_witness :
    (WatermarkStore.advance ⟨[(sampleSeries, ⟨5, 0⟩)]⟩ sampleSeries 3 7 =
      Except.error RegressionError.regression) ∧
    applyAdvance ⟨⟨[], []⟩, ⟨[(sampleSeries, ⟨5, 0⟩)]⟩⟩ sampleSeries 3 7 4 =
      (⟨⟨[], []⟩, ⟨[(sampleSeries, ⟨5, 0⟩)]⟩⟩, ⟨RunStatus.halted, 4⟩) := by
  constructor
  · exact (c6_regression_guard.1 ⟨[(sampleSeries, ⟨5, 0⟩)]⟩ sampleSeries 3 7).mpr
      ⟨⟨5, 0⟩, by decide, by decide⟩
  · exact c6_regression_guard.2 ⟨⟨[], []⟩, ⟨[(sampleSeries, ⟨5, 0⟩)]⟩⟩ sampleSeries 3 7 4
      ((c6_regression_guard.1 ⟨[(sampleSeries, ⟨5, 0⟩)]⟩ sampleSeries 3 7).mpr
        ⟨⟨5, 0⟩, by decide, by decide⟩)

/-- Claim C3: after a completed run, the watermark has not regressed,
every instant from the pre-run watermark up to the post-run watermark is
persisted, and when the watermark stops short of the horizon the next
instant is missing: the watermark advances exactly to the highest
timestamp whose predecessors in the window are all confirmed persisted. -/
theorem c3_gap_safety (cfg : Domain → Int → Bool)
    (fetch : Nat → Nat → List (Except FetchError (List Observation)))
    (series : SeriesKey) (hi now : Nat) (s : PipelineState)
    (hdone : (runOne cfg fetch series hi now s).2.status = RunStatus.done) :
    wmVal s series ≤ wmVal (runOne cfg fetch series hi now s).1 series ∧
    (∀ t, wmVal s series < t → t ≤ wmVal (runOne cfg fetch series hi now s).1 series →
      (((runOne cfg fetch series hi now s).1).raw.lookup series t).isSome = true) ∧
    (wmVal (runOne cfg fetch series hi now s).1 series < hi →
      ((runOne cfg fetch series hi now s).1).raw.lookup series
        (wmVal (runOne cfg fetch series hi now s).1 series + 1) = none) := by
  rcases runOne_cases cfg fetch series hi now s with h | ⟨s2, w, hwm, h⟩ |
    ⟨s2, w, hwm, hcl, h⟩ | ⟨s2, w, wm2, hwm, hlt, ha, h⟩
  · rw [h] at hdone
    exact absurd (show RunStatus.aborted = RunStatus.done from hdone) (by decide)
  · rw [h] at hdone
    exact absurd (show RunStatus.failed = RunStatus.done from hdone) (by decide)
  · rw [h]
    have hwv : wmVal s2 series = wmVal s series := by
      simp only [wmVal, hwm]
    have hle := contiguousHigh_le s2.raw series (wmVal s series) hi
    have hceq : contiguousHigh s2.raw series (wmVal s series) hi = wmVal s series :=
      Nat.le_antisymm hcl hle
    refine ⟨by rw [hwv], ?_, ?_⟩
    · intro t h1 h2
      rw [hwv] at h2
      exact absurd h2 (by omega)
    · intro hlt2
      rw [hwv] at hlt2 ⊢
      rw [← hceq]
      exact contiguousHigh_next s2.raw series (wmVal s series) hi (Nat.le_of_lt hlt2)
        (by omega)
  · rw [h]
    have hwv : wmVal ({ s2 with wm := wm2 } : PipelineState) series =
        contiguousHigh s2.raw series (wmVal s series) hi := by
      simp only [wmVal]
      rw [get_advance s2.wm series _ now wm2 ha series, if_pos rfl]
      rfl
    refine ⟨?_, ?_, ?_⟩
    · rw [hwv]
      exact Nat.le_of_lt hlt
    · intro t h1 h2
      rw [hwv] at h2
      exact contiguousHigh_mem s2.raw series (wmVal s series) hi t h1 h2
    · intro hlt2
      rw [hwv] at hlt2 ⊢
      exact contiguousHigh_next s2.raw series (wmVal s series) hi
        (contiguousHigh_lt_le s2.raw series (wmVal s series) hi hlt) hlt2

/-- Witness for C3, the spec's gap scenario: window (0, 5], observations
at instants 1, 2 and 4 only; the run completes, the watermark lands on 2
(not 4 or 5), instant 2 is persisted and instant 3 is missing. -/
theorem c3_gap_safety_witness :
    (runOne (fun _ _ => true) (pureFetch sampleSeries gapUpstream)
      sampleSeries 5 100 emptyState).2.status = RunStatus.done ∧
    wmVal (runOne (fun _ _ => true) (pureFetch sampleSeries gapUpstream)
      sampleSeries 5 100 emptyState).1 sampleSeries = 2 ∧
    (((runOne (fun _ _ => true) (pureFetch sampleSeries gapUpstream)
      sampleSeries 5 100 emptyState).1).raw.lookup sampleSeries 2).isSome = true ∧
    ((runOne (fun _ _ => true) (pureFetch sampleSeries gapUpstream)
      sampleSeries 5 100 emptyState).1).raw.lookup sampleSeries 3 = none := by
  refine ⟨by decide, by decide, ?_, ?_⟩
  · exact (c3_gap_safety (fun _ _ => true) (pureFetch sampleSeries gapUpstream)
      sampleSeries 5 100 emptyState (by decide)).2.1 2 (by decide) (by decide)
  · have hw : wmVal (runOne (fun _ _ => true) (pureFetch sampleSeries gapUpstream)
        sampleSeries 5 100 emptyState).1 sampleSeries = 2 := by decide
    have h3 := (c3_gap_safety (fun _ _ => true) (pureFetch sampleSeries gapUpstream)
      sampleSeries 5 100 emptyState (by decide)).2.2
    rw [hw] at h3
    exact h3 (by decide)


/-! ### Idempotent replay machinery -/

/-- Window membership: `windowList lo hi` holds exactly `(lo, hi]`. -/
theorem mem_windowList (lo hi t : Nat) : t ∈ windowList lo hi ↔ lo < t ∧ t ≤ hi := by
  simp only [windowList, List.mem_map, List.mem_range]
  constructor
  · rintro ⟨i, hi2, rfl⟩
    omega
  · rintro ⟨h1, h2⟩
    exact ⟨t - lo - 1, by omega, by omega⟩

/-- Membership in the honest upstream batch: exactly the in-window
instants the upstream holds, with their upstream values. -/
theorem mem_pureObs (series : SeriesKey) (upstream : Nat → Option Int) (lo hi : Nat)
    (o : Observation) :
    o ∈ pureObs series upstream lo hi ↔
      o.series = series ∧ lo < o.timestamp ∧ o.timestamp ≤ hi ∧
        upstream o.timestamp = some o.value := by
  obtain ⟨os, ot, ov⟩ := o
  simp only [pureObs, List.mem_filterMap, mem_windowList]
  constructor
  · rintro ⟨t, ⟨h1, h2⟩, hmap⟩
    rcases hu : upstream t with _ | v
    · rw [hu] at hmap
      exact absurd hmap (by simp)
    · rw [hu] at hmap
      simp only [Option.map_some', Option.some.injEq, Observation.mk.injEq] at hmap
      obtain ⟨hs, ht, hv⟩ := hmap
      subst hs
      subst ht
      subst hv
      exact ⟨rfl, h1, h2, hu⟩
  · rintro ⟨rfl, h1, h2, hu⟩
    exact ⟨ot, ⟨h1, h2⟩, by rw [hu]; rfl⟩

/-- Dedup keeps only elements of its input. -/
theorem mem_dedupKeepFirst : ∀ (seen : List Nat) (L : List Observation) (o : Observation),
    o ∈ dedupKeepFirst seen L → o ∈ L
  | _, [], o, h => absurd h (List.not_mem_nil o)
  | seen, x :: rest, o, h => by
    rw [dedupKeepFirst] at h
    by_cases hx : x.timestamp ∈ seen
    · rw [if_pos hx] at h
      exact List.mem_cons_of_mem _ (mem_dedupKeepFirst seen rest o h)
    · rw [if_neg hx] at h
      rcases List.mem_cons.mp h with rfl | h2
      · exact List.mem_cons_self _ _
      · exact List.mem_cons_of_mem _ (mem_dedupKeepFirst _ rest o h2)

/-- Dedup keeps some element at every timestamp it is given that is not
already seen. -/
theorem dedup_exists_timestamp : ∀ (seen : List Nat) (L : List Observation) (t : Nat),
    t ∉ seen → (∃ o ∈ L, o.timestamp = t) →
    ∃ o ∈ dedupKeepFirst seen L, o.timestamp = t
  | _, [], _, _, hex => absurd hex (by rintro ⟨o, ho, _⟩; exact List.not_mem_nil o ho)
  | seen, x :: rest, t, hs, hex => by
    rw [dedupKeepFirst]
    by_cases hx : x.timestamp ∈ seen
    · rw [if_pos hx]
      apply dedup_exists_timestamp seen rest t hs
      rcases hex with ⟨o, ho, hot⟩
      rcases List.mem_cons.mp ho with rfl | h2
      · exact absurd (hot ▸ hx) hs
      · exact ⟨o, h2, hot⟩
    · rw [if_neg hx]
      by_cases hxt : x.timestamp = t
      · exact ⟨x, List.mem_cons_self _ _, hxt⟩
      · rcases hex with ⟨o, ho, hot⟩
        rcases List.mem_cons.mp ho with rfl | h2
        · exact absurd hot hxt
        · have hns : t ∉ x.timestamp :: seen := by
            intro hmem
            rcases List.mem_cons.mp hmem with h3 | h3
            · exact hxt h3.symm
            · exact hs h3
          obtain ⟨o2, ho2, hot2⟩ :=
            dedup_exists_timestamp (x.timestamp :: seen) rest t hns ⟨o, h2, hot⟩
          exact ⟨o2, List.mem_cons_of_mem _ ho2, hot2⟩

/-- What membership in a validated batch guarantees. -/
theorem mem_validateBatch (cfg : Domain → Int → Bool) (series : SeriesKey) (lo hi : Nat)
    (L : List Observation) (o : Observation) (h : o ∈ validateBatch cfg series lo hi L) :
    o ∈ L ∧ o.series = series ∧ lo < o.timestamp ∧ o.timestamp ≤ hi ∧
      cfg o.series.domain o.value = true := by
  have h2 := mem_dedupKeepFirst [] _ o h
  have h3 := List.mem_filter.mp h2
  refine ⟨h3.1, ?_⟩
  have h4 := h3.2
  simp only [Bool.and_eq_true, decide_eq_true_eq] at h4
  exact ⟨h4.1.1.1, h4.1.1.2, h4.1.2, h4.2⟩

/-- Every in-window, in-range observation of a batch leaves a
representative (same timestamp) in the validated batch. -/
theorem validateBatch_exists (cfg : Domain → Int → Bool) (series : SeriesKey) (lo hi : Nat)
    (L : List Observation) (o : Observation) (ho : o ∈ L)
    (h1 : o.series = series) (h2 : lo < o.timestamp) (h3 : o.timestamp ≤ hi)
    (h4 : cfg o.series.domain o.value = true) :
    ∃ o2 ∈ validateBatch cfg series lo hi L, o2.timestamp = o.timestamp := by
  apply dedup_exists_timestamp [] _ o.timestamp (List.not_mem_nil _)
  refine ⟨o, List.mem_filter.mpr ⟨ho, ?_⟩, rfl⟩
  simp only [Bool.and_eq_true, decide_eq_true_eq]
  exact ⟨⟨⟨h1, h2⟩, h3⟩, h4⟩

/-- Two validated honest-upstream observations at the same instant carry
the same value. -/
theorem pureObs_valid_agree (cfg : Domain → Int → Bool) (series : SeriesKey)
    (upstream : Nat → Option Int) (lo hi : Nat) (o : Observation)
    (ho : o ∈ validateBatch cfg series lo hi (pureObs series upstream lo hi)) :
    ∀ o2 ∈ validateBatch cfg series lo hi (pureObs series upstream lo hi),
      o2.series = o.series → o2.timestamp = o.timestamp → o2.value = o.value := by
  intro o2 ho2 _ ht
  have h1 := ((mem_pureObs series upstream lo hi o).mp
    (mem_validateBatch cfg series lo hi _ o ho).1).2.2.2
  have h2 := ((mem_pureObs series upstream lo hi o2).mp
    (mem_validateBatch cfg series lo hi _ o2 ho2).1).2.2.2
  rw [ht, h1] at h2
  exact (Option.some.inj h2).symm

/-- A run over the honest fetcher is the finish step applied to the state
whose Raw Store merged the validated window batch. -/
theorem runOne_pureFetch_eq (cfg : Domain → Int → Bool) (upstream : Nat → Option Int)
    (series : SeriesKey) (hi now : Nat) (s : PipelineState) :
    runOne cfg (pureFetch series upstream) series hi now s =
      finishRun { s with raw := (RawStore.merge s.raw
          (validateBatch cfg series (wmVal s series) hi
            (pureObs series upstream (wmVal s series) hi))).1 }
        series (wmVal s series) hi now
        (RawStore.merge s.raw (validateBatch cfg series (wmVal s series) hi
          (pureObs series upstream (wmVal s series) hi))).2 := by
  simp only [runOne, pureFetch, persistPages, wmVal, Nat.zero_add]

/-- The finish step of a run whose pages all persisted: the Raw Store is
kept, the watermark becomes the gap-safe candidate and the run is DONE. -/
theorem finishRun_spec (s : PipelineState) (series : SeriesKey) (lo hi now w : Nat)
    (hlo : wmVal s series = lo) :
    ((finishRun s series lo hi now w).1).raw = s.raw ∧
    wmVal (finishRun s series lo hi now w).1 series = contiguousHigh s.raw series lo hi ∧
    (finishRun s series lo hi now w).2 = ⟨RunStatus.done, w⟩ := by
  rw [finishRun]
  by_cases hc : contiguousHigh s.raw series lo hi ≤ lo
  · rw [if_pos hc]
    refine ⟨rfl, ?_, rfl⟩
    show wmVal s series = contiguousHigh s.raw series lo hi
    have hle := contiguousHigh_le s.raw series lo hi
    omega
  · rw [if_neg hc]
    rcases ha : s.wm.advance series (contiguousHigh s.raw series lo hi) now with e | wm2
    · cases e
      rcases (advance_error_iff s.wm series _ now).mp ha with ⟨w0, hw0, hlt0⟩
      have hval : wmVal s series = w0.last_complete_timestamp := by
        simp only [wmVal]
        rw [hw0]
        rfl
      omega
    · simp only [applyAdvance, ha]
      refine ⟨by trivial, ?_, by trivial⟩
      simp only [wmVal]
      rw [get_advance s.wm series _ now wm2 ha series, if_pos rfl]
      rfl

/-- After one honest run, every valid in-window upstream instant beyond
the pre-run watermark is persisted with its upstream value. -/
theorem runOne_pure_lookup (cfg : Domain → Int → Bool) (upstream : Nat → Option Int)
    (series : SeriesKey) (hi now : Nat) (s : PipelineState) (t : Nat) (v : Int)
    (h1 : wmVal s series < t) (h2 : t ≤ hi) (h3 : upstream t = some v)
    (h4 : cfg series.domain v = true) :
    ((runOne cfg (pureFetch series upstream) series hi now s).1).raw.lookup series t =
      some v := by
  have hraw : ((runOne cfg (pureFetch series upstream) series hi now s).1).raw =
      (RawStore.merge s.raw (validateBatch cfg series (wmVal s series) hi
        (pureObs series upstream (wmVal s series) hi))).1 := by
    rw [runOne_pureFetch_eq cfg upstream series hi now s]
    exact (finishRun_spec { s with raw := (RawStore.merge s.raw
        (validateBatch cfg series (wmVal s series) hi
          (pureObs series upstream (wmVal s series) hi))).1 }
      series (wmVal s series) hi now
      (RawStore.merge s.raw (validateBatch cfg series (wmVal s series) hi
        (pureObs series upstream (wmVal s series) hi))).2 rfl).1
  rw [hraw]
  have hmem : (⟨series, t, v⟩ : Observation) ∈ pureObs series upstream (wmVal s series) hi :=
    (mem_pureObs series upstream (wmVal s series) hi ⟨series, t, v⟩).mpr ⟨rfl, h1, h2, h3⟩
  obtain ⟨o2, ho2, hot2⟩ :=
    validateBatch_exists cfg series (wmVal s series) hi _ ⟨series, t, v⟩ hmem rfl h1 h2 h4
  obtain ⟨hoL, hos, _, _, _⟩ := mem_validateBatch cfg series (wmVal s series) hi _ o2 ho2
  have hup2 := ((mem_pureObs series upstream (wmVal s series) hi o2).mp hoL).2.2.2
  have hov : o2.value = v := by
    rw [hot2, h3] at hup2
    exact (Option.some.inj hup2).symm
  have hfin := lookup_merge_mem (validateBatch cfg series (wmVal s series) hi
      (pureObs series upstream (wmVal s series) hi)) s.raw o2 ho2
    (pureObs_valid_agree cfg series upstream (wmVal s series) hi o2 ho2)
  rw [hos, hot2, hov] at hfin
  exact hfin

/-- Claim C4: re-running ingestion for a series with an unchanged
watermark and unchanged upstream data leaves the Raw Store and Watermark
Store byte-for-byte equivalent with zero new writes: the second run
returns the first run's state unchanged and reports DONE with 0 rows
written. -/
theorem c4_idempotent_replay (cfg : Domain → Int → Bool) (upstream : Nat → Option Int)
    (series : SeriesKey) (hi now now2 : Nat) (s : PipelineState) :
    runOne cfg (pureFetch series upstream) series hi now2
        (runOne cfg (pureFetch series upstream) series hi now s).1 =
      ((runOne cfg (pureFetch series upstream) series hi now s).1,
        ⟨RunStatus.done, 0⟩) := by
  obtain ⟨hraw0, hwm0, _⟩ := finishRun_spec
    { s with raw := (RawStore.merge s.raw (validateBatch cfg series (wmVal s series) hi
        (pureObs series upstream (wmVal s series) hi))).1 }
    series (wmVal s series) hi now
    (RawStore.merge s.raw (validateBatch cfg series (wmVal s series) hi
      (pureObs series upstream (wmVal s series) hi))).2 rfl
  rw [← runOne_pureFetch_eq cfg upstream series hi now s] at hraw0 hwm0
  have hraw1 : ((runOne cfg (pureFetch series upstream) series hi now s).1).raw =
      (RawStore.merge s.raw (validateBatch cfg series (wmVal s series) hi
        (pureObs series upstream (wmVal s series) hi))).1 := hraw0
  have hwm1 : wmVal (runOne cfg (pureFetch series upstream) series hi now s).1 series =
      contiguousHigh ((runOne cfg (pureFetch series upstream) series hi now s).1).raw
        series (wmVal s series) hi := by
    rw [hraw1]
    exact hwm0
  have hnoop : RawStore.merge
      ((runOne cfg (pureFetch series upstream) series hi now s).1).raw
      (validateBatch cfg series
        (wmVal (runOne cfg (pureFetch series upstream) series hi now s).1 series) hi
        (pureObs series upstream
          (wmVal (runOne cfg (pureFetch series upstream) series hi now s).1 series) hi)) =
      (((runOne cfg (pureFetch series upstream) series hi now s).1).raw, 0) := by
    apply merge_noop
    intro o ho
    obtain ⟨hoL, hos, holt, hole, hocfg⟩ := mem_validateBatch cfg series _ hi _ o ho
    have hup := ((mem_pureObs series upstream _ hi o).mp hoL).2.2.2
    rw [hos] at hocfg ⊢
    exact runOne_pure_lookup cfg upstream series hi now s o.timestamp o.value
      (Nat.lt_of_le_of_lt
        (wmVal_runOne_le cfg (pureFetch series upstream) series hi now s series) holt)
      hole hup hocfg
  have h2 : runOne cfg (pureFetch series upstream) series hi now2
      (runOne cfg (pureFetch series upstream) series hi now s).1 =
      finishRun (runOne cfg (pureFetch series upstream) series hi now s).1 series
        (wmVal (runOne cfg (pureFetch series upstream) series hi now s).1 series) hi now2
        0 := by
    rw [runOne_pureFetch_eq cfg upstream series hi now2
      (runOne cfg (pureFetch series upstream) series hi now s).1, hnoop]
  have hidem : contiguousHigh
      ((runOne cfg (pureFetch series upstream) series hi now s).1).raw series
      (wmVal (runOne cfg (pureFetch series upstream) series hi now s).1 series) hi ≤
      wmVal (runOne cfg (pureFetch series upstream) series hi now s).1 series := by
    rw [hwm1, hraw1]
    exact Nat.le_of_eq (contiguousHigh_idem
      (RawStore.merge s.raw (validateBatch cfg series (wmVal s series) hi
        (pureObs series upstream (wmVal s series) hi))).1 series (wmVal s series) hi)
  rw [h2, finishRun, if_pos hidem]

end Pipeline
